import Mathlib

/-!
Verification of the high-value link scraper (fetch, extract, score, store).

The development shallowly embeds the pipeline of `src/core/scrapper.ts`
(keyword detection, link-type classification, scoring, ranking, anchor
deduplication, the browser retry loop and its concurrency counter) and the
score-sharded repository of the sharded `LinkRepository` (`bulkInsert` over
the `links_high` / `links_medium` / `links_low` tables) together with the
single-table `LinkRepository.bulkInsert` that upserts via
`ON CONFLICT(url) DO UPDATE`.

Modelling conventions:
- JavaScript numbers carrying scores and weights are modelled as rationals.
- JavaScript strings are modelled as `String`; the primitive operations the
  source uses (`includes`, `endsWith`, `toLowerCase`, `trim`, `.length`) are
  modelled as executable functions on the underlying character lists.
- Foreign library calls (`new URL(href, base).toString()` resolution and
  `new URL(url).pathname`) are treated as parameters of the embedded
  functions; executable models of them are supplied for concrete scenarios.
- The SQLite tables are modelled as lists of rows in insertion order; the
  `url UNIQUE` constraint together with `INSERT OR IGNORE` respectively
  `ON CONFLICT(url) DO UPDATE SET ...` is reflected in the insert functions.
-/

namespace Scraper

/-! ### Models of the JavaScript string primitives -/

/-- Model of `needle` being a prefix of `haystack` on character lists
(the building block for `String.prototype.includes`). -/
def charsStartWith : List Char → List Char → Bool
  | _, [] => true
  | [], _ :: _ => false
  | c :: cs, p :: ps => c == p && charsStartWith cs ps

/-- Model of `haystack.includes(pat)` on character lists: `pat` occurs as a
contiguous run somewhere in the list. -/
def charsContain (pat : List Char) : List Char → Bool
  | [] => charsStartWith [] pat
  | c :: cs => charsStartWith (c :: cs) pat || charsContain pat cs

/-- Model of the JavaScript `haystack.includes(pat)` substring test. -/
def containsSub (s pat : String) : Bool :=
  charsContain pat.data s.data

/-- Model of `s.toLowerCase()` (character-wise lowering suffices for the
ASCII keywords, URLs and markers the scraper compares). -/
def lowerStr (s : String) : String :=
  ⟨s.data.map Char.toLower⟩

/-- Model of `s.endsWith(pat)`. -/
def strEndsWith (s pat : String) : Bool :=
  charsStartWith s.data.reverse pat.data.reverse

/-- Model of `s.trim()`: strip whitespace from both ends. -/
def trimStr (s : String) : String :=
  ⟨((s.data.dropWhile Char.isWhitespace).reverse.dropWhile Char.isWhitespace).reverse⟩

/-- Model of the JavaScript `s.length` (the inputs considered are ASCII, so
counting characters agrees with counting UTF-16 units). -/
def strLen (s : String) : Nat :=
  s.data.length

/-! ### Scoring engine (`src/core/scrapper.ts`, `LinkScraper`) -/

/-- The `type` field of a scraped link: `'document' | 'contact' | 'general'`. -/
inductive LinkType where
  | document
  | contact
  | general
deriving DecidableEq

/-- The `KEYWORD_WEIGHTS` table of `LinkScraper`, in its declaration order
(`Object.keys` iterates string keys in insertion order):
acfr 3, budget 2.5, "finance director" 2, contact 2, document 1.5. -/
def KEYWORD_WEIGHTS : List (String × ℚ) :=
  [("acfr", 3), ("budget", 5/2), ("finance director", 2), ("contact", 2), ("document", 3/2)]

/-- Lookup in `KEYWORD_WEIGHTS`, with `|| 0` for a key not in the table
(mirrors `this.KEYWORD_WEIGHTS[kw as keyof ...] || 0`). -/
def weightOf (kw : String) : ℚ :=
  (((KEYWORD_WEIGHTS.find? (fun p => p.1 == kw)).map Prod.snd)).getD 0

/-- A candidate link produced by the extractor: resolved absolute URL plus
trimmed anchor text. -/
structure CandidateLink where
  url : String
  anchorText : String
deriving DecidableEq

/-- The extensions matched by the regex `\.(pdf|docx?|xlsx?|csv)$` (the `i`
flag makes the match case-insensitive). -/
def documentExtensions : List String :=
  [".pdf", ".doc", ".docx", ".xls", ".xlsx", ".csv"]

/-- Model of `/\.(pdf|docx?|xlsx?|csv)$/i.test(link.url)`. -/
def isDocumentUrl (url : String) : Bool :=
  documentExtensions.any (fun ext => strEndsWith (lowerStr url) ext)

/-- `LinkScraper.detectKeywords`: lower-case the anchor text concatenated
with the URL, keep every weight-table key occurring as a substring, and
append the implicit keyword `document` when the URL ends in a document
extension. -/
def detectKeywords (link : CandidateLink) : List String :=
  let combined := lowerStr (link.anchorText ++ " " ++ link.url)
  let keywords := (KEYWORD_WEIGHTS.map Prod.fst).filter (fun kw => containsSub combined kw)
  if isDocumentUrl link.url then keywords ++ ["document"] else keywords

/-- The `contactPatterns` of `LinkScraper.determineLinkType`. -/
def contactPatterns : List String :=
  ["/contact", "contact-us", "staff-directory", "leadership-team"]

/-- `LinkScraper.determineLinkType`. The call `new URL(url).pathname` is the
foreign URL library; it enters as the parameter `pathOf`. -/
def determineLinkType (pathOf : String → String) (url : String) (keywords : List String) :
    LinkType :=
  if contactPatterns.any (fun pattern => containsSub (pathOf url) pattern) then .contact
  else if keywords.contains "document" then .document
  else if keywords.contains "contact" then .contact
  else .general

/-- The `typeMultipliers` of `LinkScraper.calculateScore`:
document 1.2, contact 1.5, general 1.0. -/
def typeMultiplier : LinkType → ℚ
  | .document => 6/5
  | .contact => 3/2
  | .general => 1

/-- `LinkScraper.calculateScore`: `keywords.reduce((acc, kw) => acc +
(KEYWORD_WEIGHTS[kw] || 0), 0) * typeMultipliers[type]`. -/
def calculateScore (keywords : List String) (type : LinkType) : ℚ :=
  keywords.foldl (fun acc kw => acc + weightOf kw) 0 * typeMultiplier type

/-- A scored link as returned by `rankLinks`. -/
structure ScoredLink where
  url : String
  anchor_text : String
  keywords : List String
  score : ℚ
  type : LinkType
deriving DecidableEq

/-- The per-candidate body of the `map` in `LinkScraper.rankLinks`. -/
def scoreCandidate (pathOf : String → String) (link : CandidateLink) : ScoredLink :=
  let keywords := detectKeywords link
  let type := determineLinkType pathOf link.url keywords
  ⟨link.url, link.anchorText, keywords, calculateScore keywords type, type⟩

/-- One step of the stable descending sort: insert `x` behind every element
whose score is strictly greater, in front of the first whose score is not
(so elements of equal score keep their earlier-first order). -/
def insertDesc (x : ScoredLink) : List ScoredLink → List ScoredLink
  | [] => [x]
  | y :: ys => if x.score < y.score then y :: insertDesc x ys else x :: y :: ys

/-- Model of `.sort((a, b) => b.score - a.score)`. ECMAScript requires
`Array.prototype.sort` to be stable, and a stable sort's output under a fixed
comparator is unique, so stable insertion sort realizes exactly the array the
source produces. -/
def sortByScoreDesc : List ScoredLink → List ScoredLink
  | [] => []
  | x :: xs => insertDesc x (sortByScoreDesc xs)

/-- `LinkScraper.rankLinks`: score every candidate, then sort by score
descending. -/
def rankLinks (pathOf : String → String) (links : List CandidateLink) : List ScoredLink :=
  sortByScoreDesc (links.map (scoreCandidate pathOf))

/-! ### Extractor (`LinkScraper.processHtml`) -/

/-- An anchor element with an `href` attribute, as the HTML parser hands it
to `$("a[href]").each`: the raw `href` and the element text. -/
structure Anchor where
  href : String
  text : String
deriving DecidableEq

/-- The parsed page as far as `processHtml` can observe it: the anchor
elements in document order, and the inline script bodies. The source never
reads script content in `processHtml` (it only queries `a[href]`), which the
embedding makes visible: `scripts` is not consumed. -/
structure Page where
  anchors : List Anchor
  scripts : List String
deriving DecidableEq

/-- Model of the `uniqueLinks` map update in `processHtml`:
`if (!uniqueLinks.has(url) || anchorText.length > uniqueLinks.get(url)!.anchorText.length)
then uniqueLinks.set(url, ...)`. A JavaScript `Map` with string keys is an
insertion-ordered association list with unique keys; `set` on a present key
replaces the value in place, on an absent key appends at the end. -/
def dedupInsert (m : List CandidateLink) (url text : String) : List CandidateLink :=
  match m with
  | [] => [⟨url, text⟩]
  | c :: cs =>
      if c.url = url then
        if strLen text > strLen c.anchorText then ⟨url, text⟩ :: cs else c :: cs
      else
        c :: dedupInsert cs url text

/-- The result of `processHtml` before ranking: the count of hrefs whose URL
resolution threw, and the deduplicated candidates in insertion order. -/
structure ExtractResult where
  invalidUrls : Nat
  candidates : List CandidateLink
deriving DecidableEq

/-- The `$("a[href]").each` loop of `processHtml`. The foreign call
`new URL(href, baseUrl).toString()` enters as `resolve`; a `none` result is
the thrown-and-caught invalid URL (counted, skipped), a `some` result feeds
the deduplicating map. The anchor text is trimmed as in
`$el.text().trim()`. -/
def extractStep (resolve : String → String → Option String) (baseUrl : String)
    (st : ExtractResult) (a : Anchor) : ExtractResult :=
  match resolve baseUrl a.href with
  | some url => ⟨st.invalidUrls, dedupInsert st.candidates url (trimStr a.text)⟩
  | none => ⟨st.invalidUrls + 1, st.candidates⟩

/-- The whole `$("a[href]").each` loop: fold the per-anchor step over the
anchors in document order, starting from no invalid hrefs and an empty
map. -/
def extractCandidates (resolve : String → String → Option String) (baseUrl : String)
    (anchors : List Anchor) : ExtractResult :=
  anchors.foldl (extractStep resolve baseUrl) ⟨0, []⟩

/-- `LinkScraper.processHtml`: run the anchor loop, then rank. Only
`page.anchors` is consumed; the source contains no scan of script content. -/
def processHtml (resolve : String → String → Option String) (pathOf : String → String)
    (baseUrl : String) (page : Page) : Nat × List ScoredLink :=
  let r := extractCandidates resolve baseUrl page.anchors
  (r.invalidUrls, rankLinks pathOf r.candidates)

/-! ### Executable models of the foreign URL library

Used to instantiate `resolve` and `pathOf` at concrete scenarios. -/

/-- Drop everything up to and including the first occurrence of `pat`. -/
def dropThroughPat (pat : List Char) : List Char → List Char
  | [] => []
  | c :: cs => if charsStartWith (c :: cs) pat then (c :: cs).drop pat.length
               else dropThroughPat pat cs

/-- Model of `new URL(url).pathname` for an absolute `http(s)` URL: skip the
scheme separator and the host, keep from the first `/` up to a query or
fragment delimiter; a URL without a path maps to `/`. -/
def pathnameModel (url : String) : String :=
  let afterScheme := dropThroughPat "://".data url.data
  let path := (afterScheme.dropWhile (fun c => c ≠ '/')).takeWhile
    (fun c => c ≠ '?' && c ≠ '#')
  if path.isEmpty then "/" else ⟨path⟩

/-- Model of `new URL(href, baseUrl).toString()` adequate for the concrete
scenarios: an absolute `http(s)` href resolves to itself, anything else
resolves against the base (host-relative for a leading `/`). -/
def resolveModel (baseUrl href : String) : Option String :=
  if charsContain "://".data href.data then some href
  else some (baseUrl ++ href)

/-! ### Fetcher retry policy (`LinkScraper.fetchHtml` / `handleFetchError`) -/

/-- The `MAX_RETRIES` constant of `fetchHtml`. -/
def MAX_RETRIES : Nat := 3

/-- Test of `error.message.includes("ERR_NAME_NOT_RESOLVED")`. -/
def isDnsErrorMsg (msg : String) : Bool :=
  containsSub msg "ERR_NAME_NOT_RESOLVED"

/-- The `isRecoverable` test of `handleFetchError`: not a DNS failure, and
the message names `ERR_BLOCKED_BY_CLIENT` or a Chromium `net::ERR` code. -/
def isRecoverableMsg (msg : String) : Bool :=
  !isDnsErrorMsg msg &&
    (containsSub msg "ERR_BLOCKED_BY_CLIENT" || containsSub msg "net::ERR")

/-- The decision `handleFetchError` returns. -/
structure RetryDecision where
  shouldRetry : Bool
  delay : Nat
deriving DecidableEq

/-- `LinkScraper.handleFetchError`: DNS failures never retry; otherwise
retry exactly when the message is recoverable and attempts remain, with
exponential backoff `2 ^ attempt * 1000` milliseconds. -/
def handleFetchError (msg : String) (attempt maxRetries : Nat) : RetryDecision :=
  if isDnsErrorMsg msg then ⟨false, 0⟩
  else
    let shouldRetry := isRecoverableMsg msg && decide (attempt < maxRetries - 1)
    ⟨shouldRetry, if shouldRetry then 2 ^ attempt * 1000 else 0⟩

/-- The Puppeteer-fallback `while (attempt < MAX_RETRIES)` loop of
`fetchHtml`. The browser fetch of attempt `n` is the oracle's value at `n`
(`ok html` or `error message`). The result pairs the list of backoff delays
actually slept with the outcome; `fuel` is `MAX_RETRIES - attempt`, so the
loop condition `attempt < MAX_RETRIES` is `fuel > 0`. -/
def runFetchAux (oracle : Nat → Except String String) :
    Nat → Nat → List Nat × Except String String
  | 0, _ => ([], Except.error "Max retries (3) exceeded")
  | fuel + 1, attempt =>
      match oracle attempt with
      | Except.ok html => ([], Except.ok html)
      | Except.error msg =>
          let d := handleFetchError msg attempt MAX_RETRIES
          if d.shouldRetry then
            let r := runFetchAux oracle fuel (attempt + 1)
            (d.delay :: r.1, r.2)
          else ([], Except.error msg)

/-- The whole fallback loop, started at attempt 0 with `MAX_RETRIES` fuel. -/
def runFetch (oracle : Nat → Except String String) : List Nat × Except String String :=
  runFetchAux oracle MAX_RETRIES 0

/-- Net effect of `fetchWithBrowserInstance` on the `activeRequests` counter.
The method increments on entry (`this.activeRequests++`); on the success path
it decrements once just before `return content` and the `finally` block then
decrements again, while on an error path only the `finally` decrement runs. -/
def fetchCounterAfter (activeRequests : Int) (success : Bool) : Int :=
  if success then activeRequests + 1 - 1 - 1 else activeRequests + 1 - 1

/-! ### Sharded repository (`LinkRepository` over `links_high` /
`links_medium` / `links_low`) -/

/-- The shard names. -/
inductive Shard where
  | high
  | medium
  | low
deriving DecidableEq

/-- `LinkRepository.determineShard`: high for score at least 0.7, medium for
score in [0.3, 0.7), low below. -/
def determineShard (score : ℚ) : Shard :=
  if score ≥ 7/10 then .high
  else if score ≥ 3/10 then .medium
  else .low

/-- A `ScrapedLinkWithParent` as passed to `bulkInsert`. -/
structure LinkWithParent where
  url : String
  anchor_text : String
  score : ℚ
  keywords : List String
  parentUrl : String
  type : LinkType
deriving DecidableEq

/-- A row of one `links_<shard>` table (`id, url, anchor_text, score,
keywords, parent_url, type`; ids are modelled by the order in which the
repository generated them). -/
structure StoredRow where
  id : Nat
  url : String
  anchor_text : String
  score : ℚ
  keywords : List String
  parent_url : String
  type : LinkType
deriving DecidableEq

/-- The three shard tables plus the id generator state. Each table holds its
rows in insertion order. -/
structure ShardedStore where
  high : List StoredRow
  medium : List StoredRow
  low : List StoredRow
  nextId : Nat
deriving DecidableEq

/-- The empty database. -/
def emptyStore : ShardedStore := ⟨[], [], [], 0⟩

/-- Model of `INSERT OR IGNORE` against a table whose `url` column is
`UNIQUE`: a row whose url is already present is silently dropped, leaving
the existing row untouched; otherwise the row is appended. -/
def insertOrIgnore (table : List StoredRow) (row : StoredRow) : List StoredRow :=
  if table.any (fun r => r.url == row.url) then table else table ++ [row]

/-- One `stmt.run(ulid(), ...)` of the sharded `bulkInsert`: build the row
with a fresh id and `INSERT OR IGNORE` it into the given shard's table. -/
def insertRowSharded (s : ShardedStore) (shard : Shard) (l : LinkWithParent) : ShardedStore :=
  let row : StoredRow := ⟨s.nextId, l.url, l.anchor_text, l.score, l.keywords, l.parentUrl, l.type⟩
  match shard with
  | .high => ⟨insertOrIgnore s.high row, s.medium, s.low, s.nextId + 1⟩
  | .medium => ⟨s.high, insertOrIgnore s.medium row, s.low, s.nextId + 1⟩
  | .low => ⟨s.high, s.medium, insertOrIgnore s.low row, s.nextId + 1⟩

/-- The inner per-shard loop of the sharded `bulkInsert`. -/
def insertShardLinks (s : ShardedStore) (shard : Shard) (links : List LinkWithParent) :
    ShardedStore :=
  links.foldl (fun st l => insertRowSharded st shard l) s

/-- The sharded `LinkRepository.bulkInsert`: group the batch by
`determineShard(link.score)` (the `reduce` keeps input order within each
group), then run the groups in the object-literal order high, medium, low,
each via `INSERT OR IGNORE INTO links_<shard>`. No statement ever touches a
shard other than the one the link's new score selects. -/
def bulkInsert (s : ShardedStore) (links : List LinkWithParent) : ShardedStore :=
  let highLinks := links.filter (fun l => determineShard l.score = Shard.high)
  let mediumLinks := links.filter (fun l => determineShard l.score = Shard.medium)
  let lowLinks := links.filter (fun l => determineShard l.score = Shard.low)
  insertShardLinks (insertShardLinks (insertShardLinks s .high highLinks) .medium mediumLinks)
    .low lowLinks

/-! ### Single-table repository (`src/storage/LinkRepository.ts`) -/

/-- Model of one `insert.run(ulid(), ...)` of the single-table `bulkInsert`,
whose statement is `INSERT INTO links ... ON CONFLICT(url) DO UPDATE SET
score = excluded.score, keywords = excluded.keywords, type = excluded.type`:
if a row with the url exists, that row keeps its id, anchor_text and
parent_url but takes the new score, keywords and type; otherwise a fresh row
is appended. -/
def upsertRow (table : List StoredRow) (id : Nat) (l : LinkWithParent) : List StoredRow :=
  match table with
  | [] => [⟨id, l.url, l.anchor_text, l.score, l.keywords, l.parentUrl, l.type⟩]
  | r :: rs =>
      if r.url = l.url then
        ⟨r.id, r.url, r.anchor_text, l.score, l.keywords, r.parent_url, l.type⟩ :: rs
      else
        r :: upsertRow rs id l

/-- The single-table `links` database: the table plus the id generator. -/
structure LinksStore where
  rows : List StoredRow
  nextId : Nat
deriving DecidableEq

/-- The empty single-table database. -/
def emptyLinksStore : LinksStore := ⟨[], 0⟩

/-- The single-table `LinkRepository.bulkInsert`: upsert each link in batch
order (one transaction; each statement draws a fresh id that is discarded
when the conflict branch fires). -/
def bulkInsertUpsert (s : LinksStore) (links : List LinkWithParent) : LinksStore :=
  links.foldl (fun st l => ⟨upsertRow st.rows st.nextId l, st.nextId + 1⟩) s

/-! ### Specification-side helpers and concrete scenario inputs -/

/-- The anchor text stored for key `u` in the candidate map (the map's
`get`): the first entry with that url, if any. -/
def entryText (u : String) : List CandidateLink → Option String
  | [] => none
  | c :: cs => if c.url = u then some c.anchorText else entryText u cs

/-- One step of the per-url champion: a new text replaces the current one
exactly when it is strictly longer (the comparison `dedupInsert` makes). -/
def champStep (acc : Option String) (t : String) : Option String :=
  match acc with
  | none => some t
  | some a => if strLen t > strLen a then some t else some a

/-- The trimmed anchor texts of the anchors resolving to url `u`, in
document order. -/
def textsFor (resolve : String → String → Option String) (baseUrl u : String)
    (anchors : List Anchor) : List String :=
  anchors.filterMap
    (fun a => if resolve baseUrl a.href = some u then some (trimStr a.text) else none)

/-- The url keys of the candidate map, in insertion order. -/
def keysOf (m : List CandidateLink) : List String :=
  m.map (fun c => c.url)

/-- A script body carrying the client-side redirect pattern the spec says
the extractor scans for. -/
def redirectScript : String :=
  "window.location.href = \"https://example.com/next\";"

/-- A page with no anchors whose only content is the redirect script. -/
def c3Page : Page := ⟨[], [redirectScript]⟩

/-- Claim C1 input: a link first stored with score 0.8 (shard high). -/
def c1Link1 : LinkWithParent :=
  ⟨"https://example.com/a", "A", 4/5, [], "https://parent.example/", .general⟩

/-- Claim C1 input: the same url re-upserted with score 0.1 (shard low). -/
def c1Link2 : LinkWithParent :=
  ⟨"https://example.com/a", "A", 1/10, [], "https://parent.example/", .general⟩

/-- The sharded store after upserting the url with score 0.8 and then again
with score 0.1. -/
def c1Store : ShardedStore :=
  bulkInsert (bulkInsert emptyStore [c1Link1]) [c1Link2]

/-- Claim C2 input: a link first stored with score 0.8 and keywords
`[acfr]`. -/
def c2Old : LinkWithParent :=
  ⟨"https://example.com/b", "Old", 4/5, ["acfr"], "https://parent.example/", .general⟩

/-- Claim C2 input: the same url re-upserted with score 0.9 (still shard
high), keywords `[budget]` and type `document`. -/
def c2New : LinkWithParent :=
  ⟨"https://example.com/b", "New", 9/10, ["budget"], "https://parent.example/", .document⟩

/-- The sharded store after both C2 upserts. -/
def c2ShardStore : ShardedStore :=
  bulkInsert (bulkInsert emptyStore [c2Old]) [c2New]

/-- The single-table store after both C2 upserts. -/
def c2UpsertStore : LinksStore :=
  bulkInsertUpsert (bulkInsertUpsert emptyLinksStore [c2Old]) [c2New]

/-! ## Theorems -/

-- The reduce in `calculateScore` sums the weights of the keyword list.
theorem calculateScore_eq_sum (keywords : List String) (t : LinkType) :
    calculateScore keywords t = ((keywords.map weightOf)).sum * typeMultiplier t := by
  unfold calculateScore
  congr 1
  rw [List.sum_eq_foldl, List.foldl_map]

/-- Claim C4: for every candidate link the computed score is the sum of the
configured weights of its detected keywords times the type multiplier
(weights acfr 3, budget 2.5, finance director 2, contact 2, document 1.5;
multipliers document 1.2, contact 1.5, general 1.0); a link with no matched
keywords scores 0 regardless of type; and the scenario of a URL ending in
`report.pdf` with anchor text `ACFR 2024` yields keywords
`[acfr, document]`, type `document` and score `(3 + 1.5) * 1.2 = 5.4`. -/
theorem C4_score_formula_and_scenarioB :
    (∀ (pathOf : String → String) (link : CandidateLink),
        (scoreCandidate pathOf link).score =
          ((detectKeywords link).map weightOf).sum *
            typeMultiplier (determineLinkType pathOf link.url (detectKeywords link))) ∧
    (∀ t, calculateScore [] t = 0) ∧
    weightOf "acfr" = 3 ∧ weightOf "budget" = 5/2 ∧ weightOf "finance director" = 2 ∧
    weightOf "contact" = 2 ∧ weightOf "document" = 3/2 ∧
    typeMultiplier .document = 6/5 ∧ typeMultiplier .contact = 3/2 ∧
    typeMultiplier .general = 1 ∧
    detectKeywords ⟨"https://example.com/files/report.pdf", "ACFR 2024"⟩ =
      ["acfr", "document"] ∧
    determineLinkType pathnameModel "https://example.com/files/report.pdf"
      ["acfr", "document"] = .document ∧
    (scoreCandidate pathnameModel
      ⟨"https://example.com/files/report.pdf", "ACFR 2024"⟩).score = 27/5 := by
  have hk : detectKeywords ⟨"https://example.com/files/report.pdf", "ACFR 2024"⟩ =
      ["acfr", "document"] := by decide
  have ht : determineLinkType pathnameModel "https://example.com/files/report.pdf"
      ["acfr", "document"] = .document := by decide
  refine ⟨?_, ?_, rfl, rfl, rfl, rfl, rfl, rfl, rfl, rfl, hk, ht, ?_⟩
  · intro pathOf link
    simp only [scoreCandidate, calculateScore_eq_sum]
  · intro t
    simp [calculateScore]
  · have hs : (scoreCandidate pathnameModel
        ⟨"https://example.com/files/report.pdf", "ACFR 2024"⟩).score =
        calculateScore ["acfr", "document"] .document := by
      simp only [scoreCandidate, hk, ht]
    rw [hs, calculateScore_eq_sum]
    show ((3 : ℚ) + (3/2 + 0)) * (6/5) = 27/5
    norm_num

-- The weight table's keys, needed for duplicate-freeness of the filter.
theorem keysNodup : ((KEYWORD_WEIGHTS.map Prod.fst)).Nodup := by decide

/-- Claim C5 counterexample: a URL that both ends in `.pdf` and contains the
string `document` makes `detectKeywords` return the entry `document`
twice, so the keywords field is not duplicate-free. -/
theorem C5_counterexample_duplicate_document :
    detectKeywords ⟨"https://example.com/document.pdf", "x"⟩ = ["document", "document"] ∧
    ¬ (detectKeywords ⟨"https://example.com/document.pdf", "x"⟩).Nodup := by
  constructor
  · decide
  · decide

/-- Claim C5 (amended): the keywords list of a candidate is duplicate-free
exactly when it is not the case that the URL ends in a document extension
while `document` also occurs as a substring of the lower-cased anchor text
plus URL; in that one case the implicit `document` keyword is appended as a
second copy. -/
theorem C5_keywords_nodup_iff (link : CandidateLink) :
    (detectKeywords link).Nodup ↔
      ¬(isDocumentUrl link.url = true ∧
        containsSub (lowerStr (link.anchorText ++ " " ++ link.url)) "document" = true) := by
  unfold detectKeywords
  have hfilter : (((KEYWORD_WEIGHTS.map Prod.fst)).filter
      (fun kw => containsSub (lowerStr (link.anchorText ++ " " ++ link.url)) kw)).Nodup :=
    List.Nodup.filter _ keysNodup
  cases hdoc : isDocumentUrl link.url with
  | false =>
      simp only [hdoc, Bool.false_eq_true, if_false, false_and, not_false_iff, iff_true]
      exact hfilter
  | true =>
      simp only [hdoc, if_true, true_and]
      rw [List.nodup_append]
      constructor
      · rintro ⟨-, -, hdisj⟩
        intro hmem
        have hin : "document" ∈ ((KEYWORD_WEIGHTS.map Prod.fst)).filter
            (fun kw => containsSub (lowerStr (link.anchorText ++ " " ++ link.url)) kw) := by
          rw [List.mem_filter]
          exact ⟨by decide, hmem⟩
        exact hdisj hin (by simp)
      · intro hnot
        refine ⟨hfilter, List.nodup_singleton _, ?_⟩
        intro kw hkw hkw1
        rw [List.mem_singleton] at hkw1
        subst hkw1
        rw [List.mem_filter] at hkw
        exact hnot hkw.2

/-- Claim C6: a URL whose pathname contains one of the contact path
fragments is classified `contact` no matter what the keywords say, and the
score then carries the contact multiplier 1.5. -/
theorem C6_contact_path_precedence (pathOf : String → String) (url : String)
    (keywords : List String)
    (h : contactPatterns.any (fun pattern => containsSub (pathOf url) pattern) = true) :
    determineLinkType pathOf url keywords = .contact ∧
    calculateScore keywords (determineLinkType pathOf url keywords) =
      3/2 * ((keywords.map weightOf)).sum := by
  have ht : determineLinkType pathOf url keywords = .contact := by
    unfold determineLinkType
    rw [if_pos h]
  refine ⟨ht, ?_⟩
  rw [ht, calculateScore_eq_sum]
  show ((keywords.map weightOf)).sum * typeMultiplier .contact = _
  rw [mul_comm]
  rfl

/-- Claim C6 witness: the URL `https://example.com/contact-us` is typed
`contact` even though its keyword list says `document`, and its score is
1.5 times the keyword weight sum. -/
theorem C6_witness :
    determineLinkType pathnameModel "https://example.com/contact-us" ["document"] = .contact ∧
    calculateScore ["document"]
        (determineLinkType pathnameModel "https://example.com/contact-us" ["document"]) =
      3/2 * ((["document"].map weightOf)).sum :=
  C6_contact_path_precedence pathnameModel "https://example.com/contact-us" ["document"]
    (by decide)

-- How a map update changes the stored text of one key.
theorem entryText_dedupInsert (u url t : String) (m : List CandidateLink) :
    entryText u (dedupInsert m url t) =
      if url = u then champStep (entryText u m) t else entryText u m := by
  induction m with
  | nil =>
      by_cases h : url = u <;> simp [dedupInsert, entryText, champStep, h]
  | cons c cs ih =>
      by_cases hcu : c.url = url
      · by_cases hu : url = u
        · have hc2 : c.url = u := hcu.trans hu
          by_cases hlen : strLen t > strLen c.anchorText <;>
            simp [dedupInsert, entryText, champStep, hcu, hu, hc2, hlen]
        · have hc2 : ¬ c.url = u := fun hh => hu (hcu.symm.trans hh)
          by_cases hlen : strLen t > strLen c.anchorText <;>
            simp [dedupInsert, entryText, hcu, hu, hc2, hlen]
      · by_cases hc2 : c.url = u
        · have hu : ¬ url = u := fun hh => hcu (hc2.trans hh.symm)
          have hu2 : ¬ u = url := fun hh => hu hh.symm
          simp [dedupInsert, entryText, hcu, hc2, hu, hu2]
        · simp [dedupInsert, entryText, hcu, hc2, ih]

-- Unfolding `textsFor` one anchor at a time.
theorem textsFor_cons (resolve : String → String → Option String) (baseUrl u : String)
    (a : Anchor) (as : List Anchor) :
    textsFor resolve baseUrl u (a :: as) =
      if resolve baseUrl a.href = some u then
        trimStr a.text :: textsFor resolve baseUrl u as
      else textsFor resolve baseUrl u as := by
  simp only [textsFor, List.filterMap_cons]
  by_cases h : resolve baseUrl a.href = some u <;> simp [h]

-- Along the anchor loop, the text stored for key `u` is the champion fold
-- of the texts of the anchors resolving to `u`.
theorem entryText_extractLoop (resolve : String → String → Option String)
    (baseUrl u : String) (anchors : List Anchor) :
    ∀ st : ExtractResult,
      entryText u (anchors.foldl (extractStep resolve baseUrl) st).candidates =
        (textsFor resolve baseUrl u anchors).foldl champStep
          (entryText u st.candidates) := by
  induction anchors with
  | nil => intro st; simp [textsFor]
  | cons a as ih =>
      intro st
      rw [List.foldl_cons, ih, textsFor_cons]
      cases hres : resolve baseUrl a.href with
      | none =>
          rw [if_neg (by simp [hres])]
          simp [extractStep, hres]
      | some url =>
          simp only [extractStep, hres]
          by_cases hu : url = u
          · subst hu
            rw [if_pos rfl, List.foldl_cons, entryText_dedupInsert, if_pos rfl]
          · rw [if_neg (by simp [hu]), entryText_dedupInsert, if_neg hu]

-- The champion of a nonempty text list is its first entry of maximal
-- length: everything before it is strictly shorter, nothing is longer.
theorem champ_firstMax (ts : List String) (h : ts ≠ []) :
    ∃ t l₁ l₂, ts.foldl champStep none = some t ∧ ts = l₁ ++ t :: l₂ ∧
      (∀ s ∈ l₁, strLen s < strLen t) ∧ ∀ s ∈ ts, strLen s ≤ strLen t := by
  induction ts using List.reverseRecOn with
  | nil => exact absurd rfl h
  | append_singleton ts x ih =>
      rcases eq_or_ne ts [] with hts | hts
      · subst hts
        refine ⟨x, [], [], rfl, rfl, ?_, ?_⟩
        · intro s hs
          cases hs
        · intro s hs
          rw [List.nil_append, List.mem_singleton] at hs
          subst hs
          exact le_refl _
      · obtain ⟨t, l₁, l₂, hfold, hdec, hlt, hle⟩ := ih hts
        rw [List.foldl_append, hfold]
        by_cases hx : strLen x > strLen t
        · refine ⟨x, ts, [], ?_, rfl, ?_, ?_⟩
          · show champStep (some t) x = some x
            simp [champStep, hx]
          · intro s hs
            exact lt_of_le_of_lt (hle s hs) hx
          · intro s hs
            rcases List.mem_append.mp hs with hs | hs
            · exact le_of_lt (lt_of_le_of_lt (hle s hs) hx)
            · rw [List.mem_singleton] at hs
              subst hs
              exact le_refl _
        · refine ⟨t, l₁, l₂ ++ [x], ?_, ?_, hlt, ?_⟩
          · show champStep (some t) x = some t
            simp [champStep, hx]
          · rw [hdec]
            simp
          · intro s hs
            rcases List.mem_append.mp hs with hs | hs
            · exact hle s hs
            · rw [List.mem_singleton] at hs
              subst hs
              exact Nat.not_lt.mp hx

-- Where an entry of the updated map comes from.
theorem mem_dedupInsert (m : List CandidateLink) (url t : String) :
    ∀ c ∈ dedupInsert m url t, (c.url = url ∧ c.anchorText = t) ∨ c ∈ m := by
  induction m with
  | nil =>
      intro c hc
      simp only [dedupInsert, List.mem_singleton] at hc
      subst hc
      exact Or.inl ⟨rfl, rfl⟩
  | cons d ds ih =>
      intro c hc
      by_cases hdu : d.url = url
      · by_cases hlen : strLen t > strLen d.anchorText
        · simp only [dedupInsert, if_pos hdu, if_pos hlen, List.mem_cons] at hc
          rcases hc with hc | hc
          · subst hc; exact Or.inl ⟨rfl, rfl⟩
          · exact Or.inr (List.mem_cons_of_mem _ hc)
        · simp only [dedupInsert, if_pos hdu, if_neg hlen] at hc
          exact Or.inr hc
      · simp only [dedupInsert, if_neg hdu, List.mem_cons] at hc
        rcases hc with hc | hc
        · exact Or.inr (hc ▸ List.mem_cons_self _ _)
        · rcases ih c hc with h1 | h1
          · exact Or.inl h1
          · exact Or.inr (List.mem_cons_of_mem _ h1)

-- The map update keeps the url keys duplicate-free.
theorem keysNodup_dedupInsert (m : List CandidateLink) (url t : String)
    (h : (keysOf m).Nodup) : (keysOf (dedupInsert m url t)).Nodup := by
  induction m with
  | nil => simp [dedupInsert, keysOf]
  | cons d ds ih =>
      rw [keysOf, List.map_cons, List.nodup_cons] at h
      obtain ⟨hnotin, hnd⟩ := h
      by_cases hdu : d.url = url
      · by_cases hlen : strLen t > strLen d.anchorText
        · simp only [dedupInsert, if_pos hdu, if_pos hlen]
          rw [keysOf, List.map_cons, List.nodup_cons]
          exact ⟨by rw [← hdu]; exact hnotin, hnd⟩
        · simp only [dedupInsert, if_pos hdu, if_neg hlen]
          rw [keysOf, List.map_cons, List.nodup_cons]
          exact ⟨hnotin, hnd⟩
      · simp only [dedupInsert, if_neg hdu]
        rw [keysOf, List.map_cons, List.nodup_cons]
        refine ⟨?_, ih hnd⟩
        intro hmem
        rw [List.mem_map] at hmem
        obtain ⟨c, hc, hcu⟩ := hmem
        rcases mem_dedupInsert ds url t c hc with h1 | h1
        · exact hdu (hcu ▸ h1.1)
        · exact hnotin (List.mem_map.mpr ⟨c, h1, hcu⟩)

-- The whole anchor loop keeps the url keys duplicate-free.
theorem keysNodup_extractLoop (resolve : String → String → Option String)
    (baseUrl : String) (anchors : List Anchor) :
    ∀ st : ExtractResult, (keysOf st.candidates).Nodup →
      (keysOf (anchors.foldl (extractStep resolve baseUrl) st).candidates).Nodup := by
  induction anchors with
  | nil => intro st h; exact h
  | cons a as ih =>
      intro st h
      rw [List.foldl_cons]
      apply ih
      cases hres : resolve baseUrl a.href with
      | none => simpa [extractStep, hres] using h
      | some url => simpa [extractStep, hres] using keysNodup_dedupInsert _ url (trimStr a.text) h

-- With duplicate-free keys, filtering by a url returns exactly the map's
-- entry for it.
theorem filter_eq_of_keysNodup (u : String) (m : List CandidateLink)
    (hm : (keysOf m).Nodup) :
    m.filter (fun c => decide (c.url = u)) =
      match entryText u m with
      | none => []
      | some t => [⟨u, t⟩] := by
  induction m with
  | nil => simp [entryText]
  | cons c cs ih =>
      rw [keysOf, List.map_cons, List.nodup_cons] at hm
      obtain ⟨hnotin, hnd⟩ := hm
      by_cases hc : c.url = u
      · rw [List.filter_cons_of_pos (by simp [hc])]
        have hrest : cs.filter (fun d => decide (d.url = u)) = [] := by
          rw [List.filter_eq_nil_iff]
          intro d hd
          simp only [decide_eq_true_eq]
          intro hdu
          exact hnotin (by rw [List.mem_map]; exact ⟨d, hd, hdu.trans hc.symm⟩)
        rw [hrest]
        simp only [entryText, if_pos hc]
        cases c with
        | mk curl ctext => simp_all
      · rw [List.filter_cons_of_neg (by simp [hc])]
        simp only [entryText, if_neg hc]
        exact ih hnd

/-- Claim C7: among all anchors resolving to the same absolute URL, the
extractor keeps exactly one candidate, whose anchor text is the first
longest of their trimmed texts: everything encountered before it is
strictly shorter (so a tie keeps the first), and nothing is longer. -/
theorem C7_dedup_longest_first (resolve : String → String → Option String)
    (baseUrl u : String) (anchors : List Anchor)
    (h : textsFor resolve baseUrl u anchors ≠ []) :
    ∃ t l₁ l₂,
      (extractCandidates resolve baseUrl anchors).candidates.filter
          (fun c => decide (c.url = u)) = [⟨u, t⟩] ∧
      textsFor resolve baseUrl u anchors = l₁ ++ t :: l₂ ∧
      (∀ s ∈ l₁, strLen s < strLen t) ∧
      ∀ s ∈ textsFor resolve baseUrl u anchors, strLen s ≤ strLen t := by
  obtain ⟨t, l₁, l₂, hfold, hdec, hlt, hle⟩ := champ_firstMax _ h
  have hentry : entryText u (extractCandidates resolve baseUrl anchors).candidates = some t := by
    unfold extractCandidates
    rw [entryText_extractLoop]
    simpa [entryText] using hfold
  have hnd : (keysOf (extractCandidates resolve baseUrl anchors).candidates).Nodup := by
    unfold extractCandidates
    exact keysNodup_extractLoop _ _ anchors ⟨0, []⟩ (by simp [keysOf])
  have hfilter := filter_eq_of_keysNodup u _ hnd
  rw [hentry] at hfilter
  exact ⟨t, l₁, l₂, hfilter, hdec, hlt, hle⟩

/-- Claim C7 witness: two anchors to the same URL with texts `Go` and
`Go to Contact Page`; the longer text is retained as the single entry. -/
theorem C7_witness :
    ∃ t l₁ l₂,
      (extractCandidates resolveModel "https://x.example/"
          [⟨"https://x.example/a", "Go"⟩,
           ⟨"https://x.example/a", "Go to Contact Page"⟩]).candidates.filter
          (fun c => decide (c.url = "https://x.example/a")) = [⟨"https://x.example/a", t⟩] ∧
      textsFor resolveModel "https://x.example/" "https://x.example/a"
          [⟨"https://x.example/a", "Go"⟩,
           ⟨"https://x.example/a", "Go to Contact Page"⟩] = l₁ ++ t :: l₂ ∧
      (∀ s ∈ l₁, strLen s < strLen t) ∧
      ∀ s ∈ textsFor resolveModel "https://x.example/" "https://x.example/a"
          [⟨"https://x.example/a", "Go"⟩,
           ⟨"https://x.example/a", "Go to Contact Page"⟩], strLen s ≤ strLen t :=
  C7_dedup_longest_first resolveModel "https://x.example/" "https://x.example/a"
    [⟨"https://x.example/a", "Go"⟩, ⟨"https://x.example/a", "Go to Contact Page"⟩]
    (by decide)

/-- Claim C3 counterexample: a page whose only content is an inline script
with the redirect pattern `location.href =` and a resolvable absolute
target produces no candidate at all — the extractor emits no synthetic
candidate for the redirect target. -/
theorem C3_counterexample_no_script_scan :
    containsSub redirectScript "location.href =" = true ∧
    processHtml resolveModel pathnameModel "https://example.com/" c3Page = (0, []) := by
  exact ⟨by decide, rfl⟩

/-- Claim C3 (amended): the extractor takes candidates only from anchor
elements: its output does not depend on inline script content, and every
candidate's url and label come from some anchor's resolved href and
trimmed text; no synthetic redirect candidates exist. -/
theorem C3_anchors_only (resolve : String → String → Option String)
    (pathOf : String → String) (baseUrl : String) (anchors : List Anchor)
    (scripts1 scripts2 : List String) (c : CandidateLink)
    (hc : c ∈ (extractCandidates resolve baseUrl anchors).candidates) :
    processHtml resolve pathOf baseUrl ⟨anchors, scripts1⟩ =
      processHtml resolve pathOf baseUrl ⟨anchors, scripts2⟩ ∧
    ∃ a ∈ anchors, resolve baseUrl a.href = some c.url ∧ c.anchorText = trimStr a.text := by
  refine ⟨rfl, ?_⟩
  have main : ∀ (as : List Anchor) (st : ExtractResult) (d : CandidateLink),
      d ∈ (as.foldl (extractStep resolve baseUrl) st).candidates →
      d ∈ st.candidates ∨
        ∃ a ∈ as, resolve baseUrl a.href = some d.url ∧ d.anchorText = trimStr a.text := by
    intro as
    induction as with
    | nil => intro st d hd; exact Or.inl hd
    | cons a as ih =>
        intro st d hd
        rw [List.foldl_cons] at hd
        rcases ih _ _ hd with h1 | h1
        · cases hres : resolve baseUrl a.href with
          | none =>
              rw [show extractStep resolve baseUrl st a =
                  ⟨st.invalidUrls + 1, st.candidates⟩ by simp [extractStep, hres]] at h1
              exact Or.inl h1
          | some url =>
              rw [show extractStep resolve baseUrl st a =
                  ⟨st.invalidUrls, dedupInsert st.candidates url (trimStr a.text)⟩ by
                    simp [extractStep, hres]] at h1
              rcases mem_dedupInsert st.candidates url (trimStr a.text) d h1 with h2 | h2
              · exact Or.inr ⟨a, List.mem_cons_self _ _, by rw [hres, h2.1], h2.2⟩
              · exact Or.inl h2
        · obtain ⟨a1, ha1, hres, htext⟩ := h1
          exact Or.inr ⟨a1, List.mem_cons_of_mem _ ha1, hres, htext⟩
  unfold extractCandidates at hc
  rcases main anchors ⟨0, []⟩ c hc with h1 | h1
  · cases h1
  · exact h1

/-- Claim C3 witness: with one anchor and a redirect script present, the
output equals the output with no scripts, and the single candidate is the
anchor's. -/
theorem C3_witness :
    processHtml resolveModel pathnameModel "https://x.example/"
        ⟨[⟨"https://x.example/a", " Go "⟩], ["location.href = \"https://y.example/\""]⟩ =
      processHtml resolveModel pathnameModel "https://x.example/"
        ⟨[⟨"https://x.example/a", " Go "⟩], []⟩ ∧
    ∃ a ∈ [Anchor.mk "https://x.example/a" " Go "],
      resolveModel "https://x.example/" a.href =
        some (CandidateLink.mk "https://x.example/a" "Go").url ∧
      (CandidateLink.mk "https://x.example/a" "Go").anchorText = trimStr a.text :=
  C3_anchors_only resolveModel pathnameModel "https://x.example/"
    [⟨"https://x.example/a", " Go "⟩] ["location.href = \"https://y.example/\""] []
    ⟨"https://x.example/a", "Go"⟩ (by decide)

-- Membership through one insertion step of the sort.
theorem mem_insertDesc (x z : ScoredLink) (l : List ScoredLink) :
    z ∈ insertDesc x l ↔ z = x ∨ z ∈ l := by
  induction l with
  | nil => simp [insertDesc]
  | cons y ys ih =>
      by_cases hlt : x.score < y.score
      · simp only [insertDesc, if_pos hlt, List.mem_cons, ih]
        tauto
      · simp only [insertDesc, if_neg hlt, List.mem_cons]

-- Inserting into a descending list keeps it descending.
theorem pairwise_insertDesc (x : ScoredLink) (l : List ScoredLink)
    (h : l.Pairwise (fun a b => b.score ≤ a.score)) :
    (insertDesc x l).Pairwise (fun a b => b.score ≤ a.score) := by
  induction l with
  | nil => simp [insertDesc]
  | cons y ys ih =>
      rw [List.pairwise_cons] at h
      obtain ⟨hy, hys⟩ := h
      by_cases hlt : x.score < y.score
      · rw [insertDesc, if_pos hlt, List.pairwise_cons]
        refine ⟨?_, ih hys⟩
        intro z hz
        rcases (mem_insertDesc x z ys).mp hz with hz | hz
        · exact hz ▸ le_of_lt hlt
        · exact hy z hz
      · rw [insertDesc, if_neg hlt, List.pairwise_cons]
        refine ⟨?_, ?_⟩
        · intro z hz
          rcases List.mem_cons.mp hz with hz | hz
          · exact hz ▸ not_lt.mp hlt
          · exact le_trans (hy z hz) (not_lt.mp hlt)
        · rw [List.pairwise_cons]
          exact ⟨hy, hys⟩

-- Insertion is a permutation step.
theorem perm_insertDesc (x : ScoredLink) (l : List ScoredLink) :
    (insertDesc x l).Perm (x :: l) := by
  induction l with
  | nil => rfl
  | cons y ys ih =>
      by_cases hlt : x.score < y.score
      · rw [insertDesc, if_pos hlt]
        exact (List.Perm.cons y ih).trans (List.Perm.swap x y ys)
      · rw [insertDesc, if_neg hlt]

-- Filtering by an exact score commutes with one insertion: the skipped
-- prefix consists of strictly larger scores, so for elements of the
-- filtered score the insertion point is the front.
theorem filter_insertDesc (x : ScoredLink) (l : List ScoredLink) (s : ℚ) :
    (insertDesc x l).filter (fun a => decide (a.score = s)) =
      if x.score = s then x :: l.filter (fun a => decide (a.score = s))
      else l.filter (fun a => decide (a.score = s)) := by
  induction l with
  | nil =>
      by_cases hx : x.score = s <;> simp [insertDesc, hx]
  | cons y ys ih =>
      by_cases hlt : x.score < y.score
      · rw [insertDesc, if_pos hlt]
        by_cases hx : x.score = s
        · have hy : ¬ y.score = s := by
            intro hy
            rw [hx] at hlt
            rw [hy] at hlt
            exact lt_irrefl s hlt
          rw [if_pos hx] at ih ⊢
          rw [List.filter_cons_of_neg (by simp [hy]), ih,
            List.filter_cons_of_neg (by simp [hy])]
        · rw [if_neg hx] at ih ⊢
          by_cases hy : y.score = s
          · rw [List.filter_cons_of_pos (by simp [hy]), ih,
              List.filter_cons_of_pos (by simp [hy])]
          · rw [List.filter_cons_of_neg (by simp [hy]), ih,
              List.filter_cons_of_neg (by simp [hy])]
      · rw [insertDesc, if_neg hlt]
        by_cases hx : x.score = s
        · rw [if_pos hx, List.filter_cons_of_pos (by simp [hx])]
        · rw [if_neg hx, List.filter_cons_of_neg (by simp [hx])]

-- Filtering by an exact score commutes with the whole sort: stability.
theorem filter_sortByScoreDesc (l : List ScoredLink) (s : ℚ) :
    (sortByScoreDesc l).filter (fun a => decide (a.score = s)) =
      l.filter (fun a => decide (a.score = s)) := by
  induction l with
  | nil => rfl
  | cons x xs ih =>
      rw [sortByScoreDesc, filter_insertDesc]
      by_cases hx : x.score = s
      · rw [if_pos hx, ih, List.filter_cons_of_pos (by simp [hx])]
      · rw [if_neg hx, ih, List.filter_cons_of_neg (by simp [hx])]

-- The sort permutes its input.
theorem perm_sortByScoreDesc (l : List ScoredLink) : (sortByScoreDesc l).Perm l := by
  induction l with
  | nil => rfl
  | cons x xs ih =>
      show (insertDesc x (sortByScoreDesc xs)).Perm (x :: xs)
      exact (perm_insertDesc x (sortByScoreDesc xs)).trans (List.Perm.cons x ih)

-- The sort's output is descending by score.
theorem pairwise_sortByScoreDesc (l : List ScoredLink) :
    (sortByScoreDesc l).Pairwise (fun a b => b.score ≤ a.score) := by
  induction l with
  | nil => exact List.Pairwise.nil
  | cons x xs ih => exact pairwise_insertDesc x (sortByScoreDesc xs) ih

/-- Claim C8: the ranked output of a scrape is sorted by score descending,
and for every score value the links carrying it appear in the same relative
order as in the scored-but-unsorted candidate list (stable sort); the output
is a permutation of the scored candidates. -/
theorem C8_ranking_sorted_and_stable (pathOf : String → String)
    (links : List CandidateLink) :
    (rankLinks pathOf links).Pairwise (fun a b => b.score ≤ a.score) ∧
    (∀ s : ℚ, (rankLinks pathOf links).filter (fun a => decide (a.score = s)) =
      (links.map (scoreCandidate pathOf)).filter (fun a => decide (a.score = s))) ∧
    (rankLinks pathOf links).Perm (links.map (scoreCandidate pathOf)) := by
  unfold rankLinks
  exact ⟨pairwise_sortByScoreDesc _, fun s => filter_sortByScoreDesc _ s,
    perm_sortByScoreDesc _⟩

-- A recoverable message below the attempt cap yields a retry with
-- exponential backoff.
theorem handleFetchError_recoverable (msg : String) (a mr : Nat)
    (h1 : isRecoverableMsg msg = true) (h2 : a < mr - 1) :
    handleFetchError msg a mr = ⟨true, 2 ^ a * 1000⟩ := by
  have hd : isDnsErrorMsg msg = false := by
    unfold isRecoverableMsg at h1
    cases hdns : isDnsErrorMsg msg with
    | false => rfl
    | true => rw [hdns] at h1; simp at h1
  unfold handleFetchError
  rw [if_neg (by simp [hd])]
  simp [h1, h2]

-- A DNS failure never retries.
theorem handleFetchError_dns (msg : String) (a mr : Nat)
    (h : isDnsErrorMsg msg = true) : handleFetchError msg a mr = ⟨false, 0⟩ := by
  unfold handleFetchError
  rw [if_pos h]

-- A retry decision implies the attempt was below the cap.
theorem handleFetchError_retry_lt (msg : String) (a mr : Nat)
    (h : (handleFetchError msg a mr).shouldRetry = true) : a < mr - 1 := by
  unfold handleFetchError at h
  by_cases hd : isDnsErrorMsg msg = true
  · rw [if_pos hd] at h
    simp at h
  · rw [if_neg hd] at h
    simp only [Bool.and_eq_true, decide_eq_true_eq] at h
    exact h.2

-- A retry decision carries the backoff delay of its attempt.
theorem handleFetchError_retry_delay (msg : String) (a mr : Nat)
    (h : (handleFetchError msg a mr).shouldRetry = true) :
    (handleFetchError msg a mr).delay = 2 ^ a * 1000 := by
  unfold handleFetchError at h ⊢
  by_cases hd : isDnsErrorMsg msg = true
  · rw [if_pos hd] at h
    simp at h
  · rw [if_neg hd] at h ⊢
    simp only at h
    simp [h]

-- The delays slept by the loop are the backoffs of the attempts it made,
-- in order.
theorem runFetchAux_delays (oracle : Nat → Except String String) :
    ∀ (fuel attempt : Nat),
      (runFetchAux oracle fuel attempt).1 =
        (List.range (runFetchAux oracle fuel attempt).1.length).map
          (fun i => 2 ^ (attempt + i) * 1000) := by
  intro fuel
  induction fuel with
  | zero => intro attempt; rfl
  | succ fuel ih =>
      intro attempt
      show (runFetchAux oracle (fuel + 1) attempt).1 = _
      rw [runFetchAux]
      cases hres : oracle attempt with
      | ok html => simp
      | error msg =>
          by_cases hr : (handleFetchError msg attempt MAX_RETRIES).shouldRetry = true
          · simp only [hr, if_true]
            have hdel := handleFetchError_retry_delay msg attempt MAX_RETRIES hr
            rw [hdel]
            simp only [List.length_cons, List.range_succ_eq_map, List.map_cons,
              List.map_map]
            congr 1
            rw [ih (attempt + 1)]
            simp only [List.length_map, List.length_range]
            apply List.map_congr_left
            intro i _
            simp only [Function.comp]
            have harith : attempt + 1 + i = attempt + i.succ := by omega
            rw [harith]
          · simp only [hr]
            simp

-- The loop makes at most `MAX_RETRIES - attempt` attempts, so sleeps at
-- most `MAX_RETRIES - attempt - 1` backoffs.
theorem runFetchAux_length (oracle : Nat → Except String String) :
    ∀ (fuel attempt : Nat),
      (runFetchAux oracle fuel attempt).1.length ≤ MAX_RETRIES - 1 - attempt := by
  intro fuel
  induction fuel with
  | zero => intro attempt; simp [runFetchAux]
  | succ fuel ih =>
      intro attempt
      rw [runFetchAux]
      cases hres : oracle attempt with
      | ok html => simp
      | error msg =>
          by_cases hr : (handleFetchError msg attempt MAX_RETRIES).shouldRetry = true
          · simp only [hr, if_true, List.length_cons]
            have hlt := handleFetchError_retry_lt msg attempt MAX_RETRIES hr
            have htail := ih (attempt + 1)
            unfold MAX_RETRIES at hlt htail ⊢
            omega
          · simp only [hr]
            simp

/-- Claim C9 counterexample: a browser navigation timeout (message
`Navigation timeout of 45000 ms exceeded`, a transient error in the claim's
taxonomy) is not retried even at attempt 0: the loop gives up after a single
attempt with no backoff, contradicting that every transient error retries
until the attempt cap. -/
theorem C9_counterexample_timeout_not_retried :
    (handleFetchError "Navigation timeout of 45000 ms exceeded" 0 MAX_RETRIES).shouldRetry
        = false ∧
    runFetch (fun _ => Except.error "Navigation timeout of 45000 ms exceeded") =
      ([], Except.error "Navigation timeout of 45000 ms exceeded") := by
  exact ⟨rfl, rfl⟩

/-- Claim C9 (amended): the browser path is attempted at most 3 times and
the delay slept before retry number i is `2 ^ i * 1000` milliseconds; an
error retries exactly when its message marks it recoverable
(`ERR_BLOCKED_BY_CLIENT` or `net::ERR`, and not the DNS marker) and
attempts remain, with delay `2 ^ attempt * 1000`; a DNS-resolution failure
(`ERR_NAME_NOT_RESOLVED`) aborts immediately with no retry, so a DNS error
on the first attempt ends the loop at once. Errors without those markers —
including plain navigation timeouts — abort immediately as well. -/
theorem C9_retry_policy (oracle : Nat → Except String String)
    (recMsg dnsMsg : String) (a : Nat)
    (hrec : isRecoverableMsg recMsg = true) (ha : a < MAX_RETRIES - 1)
    (hdns : isDnsErrorMsg dnsMsg = true) :
    (runFetch oracle).1.length + 1 ≤ MAX_RETRIES ∧
    (runFetch oracle).1 =
      (List.range (runFetch oracle).1.length).map (fun i => 2 ^ i * 1000) ∧
    handleFetchError recMsg a MAX_RETRIES = ⟨true, 2 ^ a * 1000⟩ ∧
    handleFetchError dnsMsg a MAX_RETRIES = ⟨false, 0⟩ ∧
    (oracle 0 = Except.error dnsMsg → runFetch oracle = ([], Except.error dnsMsg)) := by
  refine ⟨?_, ?_, handleFetchError_recoverable recMsg a MAX_RETRIES hrec ha,
    handleFetchError_dns dnsMsg a MAX_RETRIES hdns, ?_⟩
  · have := runFetchAux_length oracle MAX_RETRIES 0
    unfold runFetch
    unfold MAX_RETRIES at this ⊢
    omega
  · have := runFetchAux_delays oracle MAX_RETRIES 0
    unfold runFetch
    simpa using this
  · intro h0
    unfold runFetch MAX_RETRIES
    rw [show (3 : Nat) = 2 + 1 from rfl, runFetchAux, h0]
    simp [handleFetchError_dns dnsMsg 0 MAX_RETRIES hdns]

/-- Claim C9 witness: an oracle that always fails with
`net::ERR_CONNECTION_RESET` (recoverable) at concrete attempt 0, DNS
message `net::ERR_NAME_NOT_RESOLVED`. -/
theorem C9_witness :
    (runFetch (fun _ => Except.error "net::ERR_CONNECTION_RESET")).1.length + 1
        ≤ MAX_RETRIES ∧
    (runFetch (fun _ => Except.error "net::ERR_CONNECTION_RESET")).1 =
      (List.range
        (runFetch (fun _ => Except.error "net::ERR_CONNECTION_RESET")).1.length).map
        (fun i => 2 ^ i * 1000) ∧
    handleFetchError "net::ERR_CONNECTION_RESET" 0 MAX_RETRIES = ⟨true, 2 ^ 0 * 1000⟩ ∧
    handleFetchError "net::ERR_NAME_NOT_RESOLVED" 0 MAX_RETRIES = ⟨false, 0⟩ ∧
    ((fun _ => Except.error "net::ERR_CONNECTION_RESET" : Nat → Except String String) 0 =
        Except.error "net::ERR_NAME_NOT_RESOLVED" →
      runFetch (fun _ => Except.error "net::ERR_CONNECTION_RESET") =
        ([], Except.error "net::ERR_NAME_NOT_RESOLVED")) :=
  C9_retry_policy (fun _ => Except.error "net::ERR_CONNECTION_RESET")
    "net::ERR_CONNECTION_RESET" "net::ERR_NAME_NOT_RESOLVED" 0
    (by decide) (by decide) (by decide)

/-- Claim C10: on a successful browser fetch the `activeRequests` counter
is decremented twice (once before `return content`, once in the `finally`
block), so a call that starts at 0 ends at -1 instead of returning to its
pre-call value; only the error path is balanced. -/
theorem C10_counter_double_decrement :
    fetchCounterAfter 0 true = -1 ∧ fetchCounterAfter 0 false = 0 := by
  constructor <;> rfl

-- Scores used by the concrete repository scenarios, routed to shards.
theorem determineShard_fourFifths : determineShard ((4 : ℚ)/5) = Shard.high := by
  unfold determineShard
  rw [if_pos (by norm_num)]

theorem determineShard_nineTenths : determineShard ((9 : ℚ)/10) = Shard.high := by
  unfold determineShard
  rw [if_pos (by norm_num)]

theorem determineShard_oneTenth : determineShard ((1 : ℚ)/10) = Shard.low := by
  unfold determineShard
  rw [if_neg (by norm_num), if_neg (by norm_num)]

-- The same fact in the inverse normal form `simp` rewrites `1/10` to.
theorem determineShard_invTen : determineShard ((10 : ℚ)⁻¹) = Shard.low := by
  unfold determineShard
  rw [if_neg (by norm_num), if_neg (by norm_num)]

-- Full evaluation of the sharded store after the two C1 upserts.
theorem c1Store_eval :
    c1Store =
      ⟨[⟨0, "https://example.com/a", "A", 4/5, [], "https://parent.example/", .general⟩],
       [],
       [⟨1, "https://example.com/a", "A", 1/10, [], "https://parent.example/", .general⟩],
       2⟩ := by
  simp [c1Store, bulkInsert, c1Link1, c1Link2, determineShard_fourFifths,
    determineShard_oneTenth, determineShard_invTen, insertShardLinks, insertRowSharded,
    insertOrIgnore, emptyStore]

/-- Claim C1: re-upserting a url whose score moved from shard high (0.8) to
shard low (0.1) leaves the old row in `links_high` while a second row for
the same url lands in `links_low` — the record is not moved and the url
ends up in two partitions at once. -/
theorem C1_stale_copy_in_old_shard :
    c1Store.high.map (fun r => (r.url, r.score)) = [("https://example.com/a", 4/5)] ∧
    c1Store.low.map (fun r => (r.url, r.score)) = [("https://example.com/a", 1/10)] ∧
    c1Store.medium = [] := by
  rw [c1Store_eval]
  exact ⟨rfl, rfl, rfl⟩

-- Full evaluation of the sharded store after the two C2 upserts
-- (`INSERT OR IGNORE` drops the conflicting second row).
theorem c2ShardStore_eval :
    c2ShardStore =
      ⟨[⟨0, "https://example.com/b", "Old", 4/5, ["acfr"], "https://parent.example/",
          .general⟩],
       [], [], 2⟩ := by
  simp [c2ShardStore, bulkInsert, c2Old, c2New, determineShard_fourFifths,
    determineShard_nineTenths, insertShardLinks, insertRowSharded, insertOrIgnore,
    emptyStore]

-- Full evaluation of the single-table store after the two C2 upserts
-- (`ON CONFLICT(url) DO UPDATE` refreshes score, keywords, type in place).
theorem c2UpsertStore_eval :
    c2UpsertStore =
      ⟨[⟨0, "https://example.com/b", "Old", 9/10, ["budget"], "https://parent.example/",
          .document⟩],
       2⟩ := by
  simp [c2UpsertStore, bulkInsertUpsert, upsertRow, c2Old, c2New, emptyLinksStore]

/-- Claim C2: re-upserting a stored url with a new score 0.9, new keywords
and a new type through the sharded `bulkInsert` leaves exactly one record,
with its original id, but the record keeps the old score 0.8, old keywords
and old type (`INSERT OR IGNORE` drops the update), contradicting
update-in-place; the single-table `bulkInsert` over the same inputs shows
the intended upsert: one record, original id 0, fields refreshed to the new
values. -/
theorem C2_shard_upsert_not_refreshed :
    c2ShardStore.high.map (fun r => (r.id, r.score, r.keywords, r.type)) =
      [(0, 4/5, ["acfr"], LinkType.general)] ∧
    c2ShardStore.medium = [] ∧ c2ShardStore.low = [] ∧
    c2UpsertStore.rows.map (fun r => (r.id, r.score, r.keywords, r.type)) =
      [(0, 9/10, ["budget"], LinkType.document)] := by
  rw [c2ShardStore_eval, c2UpsertStore_eval]
  exact ⟨rfl, rfl, rfl, rfl⟩

end Scraper
